import Mathlib

/-!
Shallow embedding of `src/weather_analysis.py` (module `weather_analysis`),
whose entry point `analyze_time_series` validates two parallel sequences
(`times`, `temperatures`) and returns summary statistics or raises
`WeatherAnalysisError`.

Modelling conventions:
* Coerced temperatures are modelled as `ℚ` (exact rational arithmetic in
  place of Python floats; none of the verified properties depends on
  rounding).
* A temperature entry is `Temp.null` (Python `None`), `Temp.coercible q`
  (a numeric value or numeric string with `float(temp) = q`), or
  `Temp.nonCoercible r` (`float(temp)` raises `TypeError`/`ValueError`;
  `r` is the string rendering used in the error message).
* A time entry is `Option String`: `Option.none` is Python `None`,
  otherwise an opaque token.
* An argument to `analyze_time_series` is `Option (Arg α)`:
  `Option.none` is a `None` argument; `Arg.noLen` is an object for which
  `len(·)` raises `TypeError` (e.g. an int); `Arg.lenOnly n` is an object
  with `len(·) = n` but for which indexing raises `TypeError` (e.g. a
  set); `Arg.seq xs` is a proper sequence.
* Exceptions become `Except PyError`: `PyError.weatherAnalysisError msg`
  is the controlled exception of the module, `PyError.typeError` an uncaught
  Python `TypeError`.
* Message strings follow the source f-strings, with the ASCII quotes
  around argument names elided.
-/

/-- A temperature entry as seen by the source: Python `None`, a value
`float` coerces to `q`, or a value on which `float` raises. -/
inductive Temp where
  | null : Temp
  | coercible (q : ℚ) : Temp
  | nonCoercible (r : String) : Temp
deriving DecidableEq, Repr

/-- A non-`None` Python argument, classified by how `len` and indexing
behave on it. -/
inductive Arg (α : Type) where
  | noLen : Arg α
  | lenOnly (n : Nat) : Arg α
  | seq (xs : List α) : Arg α
deriving DecidableEq, Repr

/-- Errors escaping `analyze_time_series`: the controlled
`WeatherAnalysisError` of the module, or an uncaught Python `TypeError`. -/
inductive PyError where
  | weatherAnalysisError (msg : String) : PyError
  | typeError : PyError
deriving DecidableEq, Repr

/-- `len(arg)` : `Option.none` when `len` raises `TypeError`. -/
def argLen {α : Type} : Arg α → Option Nat
  | .noLen => Option.none
  | .lenOnly n => some n
  | .seq xs => some xs.length

/-- Message of line 61 of the source (quotes elided). -/
def missingMsg : String := "Both times and temperatures must be provided."

/-- Message of line 67 of the source (quotes elided). -/
def notSeqMsg : String := "times and temperatures must be sequences (e.g., lists)."

/-- Message of line 72 of the source (quotes elided). -/
def emptyMsg : String := "times and temperatures must not be empty."

/-- The f-string of line 77 of the source. -/
def mismatchMsg (lenTimes lenTemps : Nat) : String :=
  "Input lengths differ: times=" ++ toString lenTimes ++ ", temperatures="
    ++ toString lenTemps ++ "; truncated to shorter length."

/-- The f-string of line 95 of the source. -/
def invalidTempMsg (i : Nat) (v : String) : String :=
  "Invalid temperature value at index " ++ toString i ++ ": " ++ v

/-- The f-string of line 100 of the source. -/
def skipMsg (k : Nat) : String :=
  "Skipped " ++ toString k ++ " pair(s) where time or temperature was missing."

/-- Message of line 103 of the source. -/
def noValidMsg : String := "No valid time/temperature pairs available after validation."

/-- Insert into a sorted list, keeping ascending order. -/
def insertSorted (x : ℚ) : List ℚ → List ℚ
  | [] => [x]
  | y :: ys => if x ≤ y then x :: y :: ys else y :: insertSorted x ys

/-- Ascending sort (insertion sort).  The Python `sorted()` builtin over a totally
ordered multiset of rationals produces exactly this list: the ascending
arrangement of a multiset of rationals is unique. -/
def sortRat : List ℚ → List ℚ
  | [] => []
  | x :: xs => insertSorted x (sortRat xs)

/-- `calculate_median` (source lines 25-28): `statistics.median` of the
list, `Option.none` on an empty list.  `statistics.median` sorts the data
and takes the middle element (odd length) or the mean of the two middle
elements (even length). -/
def calculate_median (temperatures : List ℚ) : Option ℚ :=
  if temperatures = [] then Option.none
  else
    let s := sortRat temperatures
    let n := temperatures.length
    if n % 2 = 1 then some (s.getD (n / 2) 0)
    else some ((s.getD (n / 2 - 1) 0 + s.getD (n / 2) 0) / 2)

/-- `calculate_standard_deviation` (source lines 31-35), embedded up to the
final square root: `statistics.stdev` computes the Bessel-corrected sample
variance `Σ (x - mean)² / (n - 1)` and returns its square root, which is
irrational in general, so this embedding carries the variance (the square
of the return value of the source); `Option.none` when fewer than two points. -/
def calculate_standard_deviation (temperatures : List ℚ) : Option ℚ :=
  if temperatures.length < 2 then Option.none
  else
    let n : ℚ := temperatures.length
    let mean := temperatures.sum / n
    some ((temperatures.map (fun x => (x - mean) ^ 2)).sum / (n - 1))

/-- Increment the skipped-pair counter threaded through `reconcile`
(source line 89). -/
def bumpSkip (r : Except PyError (List (String × ℚ) × Nat)) :
    Except PyError (List (String × ℚ) × Nat) :=
  r.map fun vk => (vk.1, vk.2 + 1)

/-- The pair-reconciliation loop (source lines 85-97).  The source
iterates `i` over `range(effective_length)` reading `times[i]` and
`temperatures[i]`; here the loop runs structurally over
`times.zip temperatures`, whose `i`-th element is exactly that pair and
whose length is exactly `effective_length`.  `i` is the index of the head
pair.  Returns the validated `(time, coerced_temp)` pairs in original
order together with the skipped-pair count, or the first fatal error. -/
def reconcile : List (Option String × Temp) → Nat →
    Except PyError (List (String × ℚ) × Nat)
  | [], _ => .ok ([], 0)
  | (Option.none, _) :: rest, i => bumpSkip (reconcile rest (i + 1))
  | (some _, Temp.null) :: rest, i => bumpSkip (reconcile rest (i + 1))
  | (some t, Temp.coercible q) :: rest, i =>
      (reconcile rest (i + 1)).map fun vk => ((t, q) :: vk.1, vk.2)
  | (some _, Temp.nonCoercible r) :: _, i =>
      .error (.weatherAnalysisError (invalidTempMsg i r))

/-- First-occurrence lookup for an extreme value (source lines 112-115):
`valid_temps.index(m)` followed by `valid_times[that]` is the time of the
first validated pair whose temperature equals `m`.  The `""` default is
unreachable whenever `m` occurs in the list. -/
def firstTimeAt (valid : List (String × ℚ)) (m : ℚ) : String :=
  match valid.find? (fun p => p.2 = m) with
  | some p => p.1
  | Option.none => ""

/-- The result dictionary (source lines 119-131).  `stddev_sq` carries the
square of the `stddev` entry of the source (see `calculate_standard_deviation`). -/
structure AnalysisResult where
  median : Option ℚ
  stddev_sq : Option ℚ
  min : ℚ
  min_time : String
  max : ℚ
  max_time : String
  average : ℚ
  truncated : Bool
  warnings : List String
  count : Nat
deriving DecidableEq, Repr

/-- Metric computation and result assembly (source lines 105-131) on the
non-empty validated pair list `v0 :: vrest`. -/
def buildResult (v0 : String × ℚ) (vrest : List (String × ℚ))
    (truncated : Bool) (warnings : List String) : AnalysisResult :=
  let valid := v0 :: vrest
  let temps := valid.map Prod.snd
  let min_temp := (vrest.map Prod.snd).foldl Min.min v0.2
  let max_temp := (vrest.map Prod.snd).foldl Max.max v0.2
  { median := calculate_median temps
    stddev_sq := calculate_standard_deviation temps
    min := min_temp
    min_time := firstTimeAt valid min_temp
    max := max_temp
    max_time := firstTimeAt valid max_temp
    average := temps.sum / (temps.length : ℚ)
    truncated := truncated
    warnings := warnings
    count := valid.length }

/-- `analyze_time_series` (source lines 38-133). -/
def analyze_time_series (times : Option (Arg (Option String)))
    (temperatures : Option (Arg Temp)) : Except PyError AnalysisResult :=
  match times, temperatures with
  | Option.none, _ => .error (.weatherAnalysisError missingMsg)
  | _, Option.none => .error (.weatherAnalysisError missingMsg)
  | some ta, some pa =>
    match argLen ta, argLen pa with
    | Option.none, _ => .error (.weatherAnalysisError notSeqMsg)
    | _, Option.none => .error (.weatherAnalysisError notSeqMsg)
    | some lenTimes, some lenTemps =>
      if lenTimes = 0 ∨ lenTemps = 0 then .error (.weatherAnalysisError emptyMsg)
      else
        let truncated : Bool := lenTimes ≠ lenTemps
        let warnings0 : List String :=
          if lenTimes ≠ lenTemps then [mismatchMsg lenTimes lenTemps] else []
        match ta, pa with
        | .seq ts, .seq ps =>
          match reconcile (ts.zip ps) 0 with
          | .error e => .error e
          | .ok (valid, skipped) =>
            let warnings :=
              if skipped ≠ 0 then warnings0 ++ [skipMsg skipped] else warnings0
            match valid with
            | [] => .error (.weatherAnalysisError noValidMsg)
            | v0 :: vrest => .ok (buildResult v0 vrest truncated warnings)
        -- Here both lengths are nonzero, so effective_length ≥ 1 and the
        -- first loop iteration indexes an argument that does not support
        -- indexing: Python raises an uncaught TypeError.
        | _, _ => .error .typeError

deriving instance DecidableEq for Except

/-- A raw pair the loop skips: null time or null temperature
(source line 88). -/
def isSkipped : Option String × Temp → Bool
  | (Option.none, _) => true
  | (_, Temp.null) => true
  | _ => false

/-- A raw pair on which the loop raises: non-null time together with a
non-null, non-coercible temperature (source lines 92-95). -/
def isOffender : Option String × Temp → Bool
  | (some _, Temp.nonCoercible _) => true
  | _ => false

/-- The order-preserving filter of the raw pairs down to validated pairs:
what the loop appends to `valid_times`/`valid_temps` when it hits no
offender. -/
def survivors (l : List (Option String × Temp)) : List (String × ℚ) :=
  l.filterMap fun p =>
    match p with
    | (some t, Temp.coercible q) => some (t, q)
    | _ => Option.none

/-- A non-null temperature entry that `float` coerces. -/
def isCoercible : Temp → Bool
  | Temp.coercible _ => true
  | _ => false

/-- Modelled from the spec wording of section 4.3 for comparison with the
source embedding: the Bessel-corrected sample variance, divisor `n - 1`
(the square of the spec sample standard deviation). -/
def besselSampleVariance (xs : List ℚ) : ℚ :=
  (xs.map (fun x => (x - xs.sum / (xs.length : ℚ)) ^ 2)).sum / ((xs.length : ℚ) - 1)

/-! ### Lemmas about the reconciliation loop -/

theorem reconcile_ok (l : List (Option String × Temp)) (i : Nat)
    (h : ∀ p ∈ l, isOffender p = false) :
    reconcile l i = .ok (survivors l, l.countP isSkipped) := by
  induction l generalizing i with
  | nil => simp [reconcile, survivors]
  | cons hd tl ih =>
    have htl : ∀ p ∈ tl, isOffender p = false := fun p hp => h p (List.mem_cons_of_mem hd hp)
    have hhd : isOffender hd = false := h hd (List.mem_cons_self hd tl)
    obtain ⟨t, temp⟩ := hd
    cases t with
    | none =>
      simp [reconcile, bumpSkip, Except.map, ih (i + 1) htl, survivors,
        List.countP_cons, isSkipped]
    | some tv =>
      cases temp with
      | null =>
        simp [reconcile, bumpSkip, Except.map, ih (i + 1) htl, survivors,
          List.countP_cons, isSkipped]
      | coercible q =>
        simp [reconcile, Except.map, ih (i + 1) htl, survivors,
          List.countP_cons, isSkipped]
      | nonCoercible r =>
        simp [isOffender] at hhd

theorem survivors_length_add_countP (l : List (Option String × Temp))
    (h : ∀ p ∈ l, isOffender p = false) :
    (survivors l).length + l.countP isSkipped = l.length := by
  induction l with
  | nil => simp [survivors]
  | cons hd tl ih =>
    have htl : ∀ p ∈ tl, isOffender p = false := fun p hp => h p (List.mem_cons_of_mem hd hp)
    have hhd : isOffender hd = false := h hd (List.mem_cons_self hd tl)
    have ih' := ih htl
    simp only [survivors] at ih'
    obtain ⟨t, temp⟩ := hd
    cases t with
    | none =>
      simp only [survivors, List.filterMap_cons, List.countP_cons, isSkipped,
        List.length_cons, if_true]
      omega
    | some tv =>
      cases temp with
      | null =>
        simp only [survivors, List.filterMap_cons, List.countP_cons, isSkipped,
          List.length_cons, if_true]
        omega
      | coercible q =>
        simp only [survivors, List.filterMap_cons, List.countP_cons, isSkipped,
          List.length_cons, Bool.false_eq_true, if_false, List.length_cons]
        omega
      | nonCoercible r =>
        simp [isOffender] at hhd

theorem reconcile_error (pre : List (Option String × Temp)) (t r : String)
    (post : List (Option String × Temp)) (i : Nat)
    (hpre : ∀ p ∈ pre, isOffender p = false) :
    reconcile (pre ++ (some t, Temp.nonCoercible r) :: post) i =
      .error (.weatherAnalysisError (invalidTempMsg (i + pre.length) r)) := by
  induction pre generalizing i with
  | nil => simp [reconcile]
  | cons hd tl ih =>
    have htl : ∀ p ∈ tl, isOffender p = false := fun p hp => hpre p (List.mem_cons_of_mem hd hp)
    have hhd : isOffender hd = false := hpre hd (List.mem_cons_self hd tl)
    have harith : i + 1 + tl.length = i + (tl.length + 1) := by omega
    obtain ⟨tt, temp⟩ := hd
    cases tt with
    | none =>
      simp [reconcile, bumpSkip, Except.map, ih (i + 1) htl, harith]
    | some tv =>
      cases temp with
      | null =>
        simp [reconcile, bumpSkip, Except.map, ih (i + 1) htl, harith]
      | coercible q =>
        simp [reconcile, Except.map, ih (i + 1) htl, harith]
      | nonCoercible r2 =>
        simp [isOffender] at hhd

theorem mem_take_imp_get {α : Type} :
    ∀ (l : List α) (j : Nat) (p : α), p ∈ l.take j →
      ∃ i, ∃ hi : i < l.length, i < j ∧ l.get ⟨i, hi⟩ = p := by
  intro l
  induction l with
  | nil => intro j p hp; simp at hp
  | cons a tl ih =>
    intro j p hp
    cases j with
    | zero => simp at hp
    | succ k =>
      simp only [List.take_succ_cons, List.mem_cons] at hp
      rcases hp with rfl | hp
      · exact ⟨0, by simp, Nat.succ_pos k, rfl⟩
      · obtain ⟨i, hi, hik, hget⟩ := ih k p hp
        exact ⟨i + 1, by simpa using Nat.succ_lt_succ hi, Nat.succ_lt_succ hik, hget⟩

/-- Normal form of `analyze_time_series` on two proper non-empty
sequences: the remaining behaviour is decided by the reconciliation
loop over `ts.zip ps`. -/
theorem analyze_seq_seq (ts : List (Option String)) (ps : List Temp)
    (hts : ts.length ≠ 0) (hps : ps.length ≠ 0) :
    analyze_time_series (some (.seq ts)) (some (.seq ps)) =
      match reconcile (ts.zip ps) 0 with
      | .error e => .error e
      | .ok (valid, skipped) =>
        match valid with
        | [] => .error (.weatherAnalysisError noValidMsg)
        | v0 :: vrest =>
          .ok (buildResult v0 vrest (decide (ts.length ≠ ps.length))
            ((if ts.length ≠ ps.length then [mismatchMsg ts.length ps.length] else [])
              ++ (if skipped ≠ 0 then [skipMsg skipped] else []))) := by
  rw [analyze_time_series]
  simp only [argLen]
  rw [if_neg (by omega)]
  cases hr : reconcile (ts.zip ps) 0 with
  | error e => rfl
  | ok vk =>
    obtain ⟨valid, skipped⟩ := vk
    cases valid with
    | nil => rfl
    | cons v0 vrest =>
      by_cases hsk : skipped = 0
      · subst hsk
        simp
      · simp [hsk]

/-- The skipped-pair warning can never coincide with a length-mismatch
warning: the two texts differ already in their first character. -/
theorem skipMsg_ne_mismatchMsg (k a b : Nat) : skipMsg k ≠ mismatchMsg a b := by
  intro h
  have h2 := congrArg (fun s => s.data.head?) h
  simp only [skipMsg, mismatchMsg, String.data_append, List.head?_append] at h2
  rw [show ("Skipped ").data.head? = some 'S' from by decide,
      show ("Input lengths differ: times=").data.head? = some 'I' from by decide] at h2
  simp at h2

theorem foldl_min_mem : ∀ (xs : List ℚ) (x : ℚ), xs.foldl Min.min x ∈ x :: xs := by
  intro xs
  induction xs with
  | nil => intro x; simp
  | cons a tl ih =>
    intro x
    simp only [List.foldl_cons]
    rcases List.mem_cons.mp (ih (Min.min x a)) with h1 | h1
    · rw [h1]
      rcases min_choice x a with hc | hc <;> simp [hc]
    · simp [List.mem_cons_of_mem, h1]

theorem foldl_min_le : ∀ (xs : List ℚ) (x y : ℚ), y ∈ x :: xs → xs.foldl Min.min x ≤ y := by
  intro xs
  induction xs with
  | nil =>
    intro x y hy
    simp only [List.mem_singleton] at hy
    simp [hy]
  | cons a tl ih =>
    intro x y hy
    simp only [List.foldl_cons]
    rcases List.mem_cons.mp hy with hxy | hy2
    · rw [hxy]
      exact le_trans (ih (Min.min x a) (Min.min x a) (List.mem_cons_self _ _)) (min_le_left x a)
    · rcases List.mem_cons.mp hy2 with hya | hy3
      · rw [hya]
        exact le_trans (ih (Min.min x a) (Min.min x a) (List.mem_cons_self _ _)) (min_le_right x a)
      · exact ih (Min.min x a) y (List.mem_cons_of_mem _ hy3)

theorem foldl_max_mem : ∀ (xs : List ℚ) (x : ℚ), xs.foldl Max.max x ∈ x :: xs := by
  intro xs
  induction xs with
  | nil => intro x; simp
  | cons a tl ih =>
    intro x
    simp only [List.foldl_cons]
    rcases List.mem_cons.mp (ih (Max.max x a)) with h1 | h1
    · rw [h1]
      rcases max_choice x a with hc | hc <;> simp [hc]
    · simp [List.mem_cons_of_mem, h1]

theorem le_foldl_max : ∀ (xs : List ℚ) (x y : ℚ), y ∈ x :: xs → y ≤ xs.foldl Max.max x := by
  intro xs
  induction xs with
  | nil =>
    intro x y hy
    simp only [List.mem_singleton] at hy
    simp [hy]
  | cons a tl ih =>
    intro x y hy
    simp only [List.foldl_cons]
    rcases List.mem_cons.mp hy with hxy | hy2
    · rw [hxy]
      exact le_trans (le_max_left x a) (ih (Max.max x a) (Max.max x a) (List.mem_cons_self _ _))
    · rcases List.mem_cons.mp hy2 with hya | hy3
      · rw [hya]
        exact le_trans (le_max_right x a) (ih (Max.max x a) (Max.max x a) (List.mem_cons_self _ _))
      · exact ih (Max.max x a) y (List.mem_cons_of_mem _ hy3)

theorem find?_eq_some_first {α : Type} (p : α → Bool) :
    ∀ (l : List α) (a : α), l.find? p = some a →
      ∃ j, ∃ hj : j < l.length, l.get ⟨j, hj⟩ = a ∧ p a = true ∧
        ∀ i (hi : i < j), p (l.get ⟨i, Nat.lt_trans hi hj⟩) = false := by
  intro l
  induction l with
  | nil => intro a h; simp [List.find?] at h
  | cons b tl ih =>
    intro a h
    by_cases hb : p b = true
    · rw [List.find?_cons_of_pos _ hb] at h
      injection h with h
      subst h
      exact ⟨0, by simp, rfl, hb, fun i hi => absurd hi (Nat.not_lt_zero i)⟩
    · have hbf : p b = false := by simpa using hb
      rw [List.find?_cons_of_neg _ (by simp [hbf])] at h
      obtain ⟨j, hj, hget, hpa, hprev⟩ := ih a h
      refine ⟨j + 1, by simpa using Nat.succ_lt_succ hj, by simpa using hget, hpa, ?_⟩
      intro i hi
      cases i with
      | zero => simpa using hbf
      | succ m =>
        have hm : m < j := Nat.lt_of_succ_lt_succ hi
        simpa using hprev m hm

theorem find?_exists_of_mem {α : Type} (p : α → Bool) :
    ∀ (l : List α) (x : α), x ∈ l → p x = true → ∃ a, l.find? p = some a := by
  intro l
  induction l with
  | nil => intro x hx; simp at hx
  | cons b tl ih =>
    intro x hx hp
    by_cases hb : p b = true
    · exact ⟨b, List.find?_cons_of_pos _ hb⟩
    · have hbf : p b = false := by simpa using hb
      rcases List.mem_cons.mp hx with rfl | hx2
      · exact absurd hp (by simp [hbf])
      · obtain ⟨a, ha⟩ := ih x hx2 hp
        exact ⟨a, by rw [List.find?_cons_of_neg _ (by simp [hbf])]; exact ha⟩

theorem zip_take_min {α β : Type} :
    ∀ (ts : List α) (ps : List β),
      ts.zip ps =
        (ts.take (min ts.length ps.length)).zip (ps.take (min ts.length ps.length)) := by
  intro ts
  induction ts with
  | nil => intro ps; simp
  | cons t tl ih =>
    intro ps
    cases ps with
    | nil => simp
    | cons p pl =>
      have hmin : min (t :: tl).length (p :: pl).length = min tl.length pl.length + 1 := by
        simp only [List.length_cons]
        omega
      rw [hmin]
      simp only [List.take_succ_cons, List.zip_cons_cons]
      exact congrArg (List.cons (t, p)) (ih pl)

/-- Normal form of `analyze_time_series` when either proper sequence is
empty (source lines 71-72). -/
theorem analyze_seq_zero (ts : List (Option String)) (ps : List Temp)
    (h : ts.length = 0 ∨ ps.length = 0) :
    analyze_time_series (some (.seq ts)) (some (.seq ps)) =
      .error (.weatherAnalysisError emptyMsg) := by
  rw [analyze_time_series]
  simp only [argLen]
  rw [if_pos h]

/-- A successful analysis can only arise from two proper sequences. -/
theorem analyze_ok_shape (t : Option (Arg (Option String))) (p : Option (Arg Temp))
    (res : AnalysisResult) (h : analyze_time_series t p = .ok res) :
    ∃ ts ps, t = some (Arg.seq ts) ∧ p = some (Arg.seq ps) := by
  cases t with
  | none => simp [analyze_time_series] at h
  | some ta =>
    cases p with
    | none => cases ta <;> simp [analyze_time_series] at h
    | some pa =>
      cases ta with
      | noLen => simp [analyze_time_series, argLen] at h
      | lenOnly n =>
        cases pa with
        | noLen => simp [analyze_time_series, argLen] at h
        | lenOnly m =>
          rw [analyze_time_series] at h
          simp only [argLen] at h
          split at h <;> simp at h
        | seq ps =>
          rw [analyze_time_series] at h
          simp only [argLen] at h
          split at h <;> simp at h
      | seq ts =>
        cases pa with
        | noLen => simp [analyze_time_series, argLen] at h
        | lenOnly m =>
          rw [analyze_time_series] at h
          simp only [argLen] at h
          split at h <;> simp at h
        | seq ps => exact ⟨ts, ps, rfl, rfl⟩

/-- Inversion of a successful run on two proper sequences: both are
non-empty, the loop succeeded on a non-empty validated list, and the
result is exactly the assembled record with the canonical warning list. -/
theorem analyze_ok_inv (ts : List (Option String)) (ps : List Temp)
    (res : AnalysisResult)
    (h : analyze_time_series (some (.seq ts)) (some (.seq ps)) = .ok res) :
    ts.length ≠ 0 ∧ ps.length ≠ 0 ∧
    ∃ v0 vrest skipped,
      reconcile (ts.zip ps) 0 = .ok (v0 :: vrest, skipped) ∧
      res = buildResult v0 vrest (decide (ts.length ≠ ps.length))
        ((if ts.length ≠ ps.length then [mismatchMsg ts.length ps.length] else [])
          ++ (if skipped ≠ 0 then [skipMsg skipped] else [])) := by
  have hts : ts.length ≠ 0 := by
    intro h0
    rw [analyze_seq_zero ts ps (Or.inl h0)] at h
    simp at h
  have hps : ps.length ≠ 0 := by
    intro h0
    rw [analyze_seq_zero ts ps (Or.inr h0)] at h
    simp at h
  refine ⟨hts, hps, ?_⟩
  rw [analyze_seq_seq ts ps hts hps] at h
  rcases hrec : reconcile (ts.zip ps) 0 with e | vk
  · rw [hrec] at h
    simp at h
  · obtain ⟨valid, skipped⟩ := vk
    rw [hrec] at h
    cases valid with
    | nil => simp at h
    | cons v0 vrest =>
      simp only [Except.ok.injEq] at h
      exact ⟨v0, vrest, skipped, rfl, h.symm⟩

/-! ### Claim theorems -/

/-- C1: for every pair of non-empty, equal-length input sequences in which
no entry of `times` or `temperatures` is null and every temperature is
numeric or a numeric string (i.e. coercible), `analyze_time_series`
returns successfully with `count` equal to the common input length,
`truncated = false` and `warnings = []`. -/
theorem C1_clean_equal_inputs (ts : List (Option String)) (ps : List Temp)
    (hlen : ts.length = ps.length) (hne : ts.length ≠ 0)
    (htimes : ∀ t ∈ ts, t.isSome = true)
    (htemps : ∀ p ∈ ps, isCoercible p = true) :
    ∃ res, analyze_time_series (some (.seq ts)) (some (.seq ps)) = .ok res ∧
      res.count = ts.length ∧ res.truncated = false ∧ res.warnings = [] := by
  have hzlen : (ts.zip ps).length = ts.length := by
    rw [List.length_zip, ← hlen, Nat.min_self]
  have hoff : ∀ p ∈ ts.zip ps, isOffender p = false := by
    intro p hp
    obtain ⟨t, temp⟩ := p
    have hmem := List.of_mem_zip hp
    have hc := htemps temp hmem.2
    cases temp with
    | null => simp [isCoercible] at hc
    | coercible q => cases t <;> simp [isOffender]
    | nonCoercible r => simp [isCoercible] at hc
  have hskip : (ts.zip ps).countP isSkipped = 0 := by
    rw [List.countP_eq_zero]
    intro p hp
    obtain ⟨t, temp⟩ := p
    have hmem := List.of_mem_zip hp
    have ht := htimes t hmem.1
    have hc := htemps temp hmem.2
    cases t with
    | none => simp at ht
    | some tv =>
      cases temp with
      | null => simp [isCoercible] at hc
      | coercible q => simp [isSkipped]
      | nonCoercible r => simp [isCoercible] at hc
  have hrec : reconcile (ts.zip ps) 0 = .ok (survivors (ts.zip ps), 0) := by
    rw [reconcile_ok _ 0 hoff, hskip]
  have hslen : (survivors (ts.zip ps)).length = ts.length := by
    have := survivors_length_add_countP (ts.zip ps) hoff
    omega
  have hpsne : ps.length ≠ 0 := by omega
  cases hsv : survivors (ts.zip ps) with
  | nil => rw [hsv] at hslen; simp at hslen; omega
  | cons v0 vrest =>
    rw [hsv] at hrec
    have hlen2 : vrest.length + 1 = ts.length := by
      rw [hsv] at hslen
      simpa using hslen
    refine ⟨buildResult v0 vrest false [], ?_, ?_, ?_, ?_⟩
    · rw [analyze_seq_seq ts ps hne hpsne, hrec]
      simp [hlen]
    · simp [buildResult, hlen2]
    · simp [buildResult]
    · simp [buildResult]

theorem C1_witness :
    ∃ res, analyze_time_series (some (.seq [some "t0", some "t1"]))
        (some (.seq [Temp.coercible 1, Temp.coercible 2])) = .ok res ∧
      res.count = ([some "t0", some "t1"] : List (Option String)).length ∧
      res.truncated = false ∧ res.warnings = [] :=
  C1_clean_equal_inputs [some "t0", some "t1"] [Temp.coercible 1, Temp.coercible 2]
    (by decide) (by decide) (by decide) (by decide)

/-- C3 counterexample: a `times` argument that supports `len` (returning
1) but not indexing — e.g. a one-element set — escapes with an uncaught
`TypeError` from `times[0]`, not with the controlled
`WeatherAnalysisError`: the `try/except TypeError` of source lines 63-67
guards only the two `len` calls, not the subscripting in the loop. -/
theorem C3_counterexample :
    analyze_time_series (some (.lenOnly 1)) (some (.seq [Temp.coercible 1])) =
      .error .typeError := by
  rfl

/-- C3 (amended): an argument that is non-null but does not support
length access fails with the controlled `WeatherAnalysisError`
(InvalidInput); an argument supporting `len` but not indexed access
instead escapes with an uncaught `TypeError` (see `C3_counterexample`). -/
theorem C3_no_len_invalid_input (t : Option (Arg (Option String)))
    (p : Option (Arg Temp)) (h : t = some .noLen ∨ p = some .noLen) :
    ∃ msg, analyze_time_series t p = .error (.weatherAnalysisError msg) := by
  rcases h with rfl | rfl
  · cases p with
    | none => exact ⟨missingMsg, rfl⟩
    | some pa => exact ⟨notSeqMsg, by cases pa <;> rfl⟩
  · cases t with
    | none => exact ⟨missingMsg, rfl⟩
    | some ta => cases ta <;> exact ⟨notSeqMsg, rfl⟩

theorem C3_witness :
    ∃ msg, analyze_time_series (some .noLen) (some (.seq [Temp.coercible 1])) =
      .error (.weatherAnalysisError msg) :=
  C3_no_len_invalid_input (some .noLen) (some (.seq [Temp.coercible 1])) (Or.inl rfl)

/-- Every all-null pair is skipped, never an offender. -/
theorem isOffender_eq_false_of_isSkipped (p : Option String × Temp)
    (h : isSkipped p = true) : isOffender p = false := by
  obtain ⟨t, temp⟩ := p
  cases t <;> cases temp <;> simp_all [isSkipped, isOffender]

/-- C8: `analyze_time_series` fails with the controlled
`WeatherAnalysisError` (InvalidInput) whenever (1) `times` is null,
(2) `temperatures` is null, (3) either proper sequence has zero length,
or (4) every index below the effective length has a null time or null
temperature (so no valid pair survives); in each case no result is
returned. -/
theorem C8_invalid_input_failures :
    (∀ p, analyze_time_series Option.none p =
        .error (.weatherAnalysisError missingMsg)) ∧
    (∀ t, analyze_time_series t Option.none =
        .error (.weatherAnalysisError missingMsg)) ∧
    (∀ (ts : List (Option String)) (ps : List Temp),
      ts.length = 0 ∨ ps.length = 0 →
      analyze_time_series (some (.seq ts)) (some (.seq ps)) =
        .error (.weatherAnalysisError emptyMsg)) ∧
    (∀ (ts : List (Option String)) (ps : List Temp),
      ts.length ≠ 0 → ps.length ≠ 0 →
      (∀ p ∈ ts.zip ps, isSkipped p = true) →
      analyze_time_series (some (.seq ts)) (some (.seq ps)) =
        .error (.weatherAnalysisError noValidMsg)) := by
  refine ⟨fun p => by cases p <;> rfl, fun t => ?_,
    fun ts ps h => analyze_seq_zero ts ps h, ?_⟩
  · cases t <;> rfl
  · intro ts ps hts hps hall
    have hoff : ∀ p ∈ ts.zip ps, isOffender p = false :=
      fun p hp => isOffender_eq_false_of_isSkipped p (hall p hp)
    have hcount : (ts.zip ps).countP isSkipped = (ts.zip ps).length :=
      List.countP_eq_length.mpr hall
    have hsur : (survivors (ts.zip ps)).length = 0 := by
      have := survivors_length_add_countP (ts.zip ps) hoff
      omega
    have hsur2 : survivors (ts.zip ps) = [] := List.length_eq_zero.mp hsur
    rw [analyze_seq_seq ts ps hts hps, reconcile_ok _ 0 hoff, hsur2]

theorem C8_witness :
    analyze_time_series Option.none (some (.seq [Temp.coercible 1])) =
        .error (.weatherAnalysisError missingMsg) ∧
    analyze_time_series (some (.seq [some "t0"])) Option.none =
        .error (.weatherAnalysisError missingMsg) ∧
    analyze_time_series (some (.seq ([] : List (Option String))))
        (some (.seq ([] : List Temp))) =
        .error (.weatherAnalysisError emptyMsg) ∧
    analyze_time_series (some (.seq [Option.none, Option.none]))
        (some (.seq [Temp.null, Temp.null])) =
        .error (.weatherAnalysisError noValidMsg) :=
  ⟨C8_invalid_input_failures.1 _,
   C8_invalid_input_failures.2.1 _,
   C8_invalid_input_failures.2.2.1 [] [] (Or.inl rfl),
   C8_invalid_input_failures.2.2.2 [Option.none, Option.none] [Temp.null, Temp.null]
     (by decide) (by decide) (by decide)⟩

/-- C9: the null check precedes the coercion check.  A pair whose time is
null is skipped outright — the loop recurses on the rest with the skip
counter bumped, for every temperature value `x`, including non-coercible
ones, so no coercion is attempted.  In particular
`times=[None], temperatures=["abc"]` raises the no-valid-pairs error, not
the invalid-temperature error, and (with the error case of `reconcile`) a
non-coercible temperature is fatal only when its paired time is non-null. -/
theorem C9_null_check_precedes_coercion :
    (∀ (x : Temp) (rest : List (Option String × Temp)) (i : Nat),
      reconcile ((Option.none, x) :: rest) i = bumpSkip (reconcile rest (i + 1))) ∧
    (∀ (x y : Temp) (rest : List (Option String × Temp)) (i : Nat),
      reconcile ((Option.none, x) :: rest) i = reconcile ((Option.none, y) :: rest) i) ∧
    analyze_time_series (some (.seq [Option.none]))
        (some (.seq [Temp.nonCoercible "abc"])) =
      .error (.weatherAnalysisError noValidMsg) :=
  ⟨fun _ _ _ => rfl, fun _ _ _ _ => rfl, rfl⟩

/-- C2: for every input accepted by shape validation (two proper non-empty
sequences), if index `j` below the effective length carries a non-null
time and a non-null temperature that `float` cannot coerce — and `j` is
the first such index, which is the one the left-to-right loop reaches —
then the whole call fails with `WeatherAnalysisError` and the message
identifies both the offending index `j` and the offending value. -/
theorem C2_non_coercible_is_fatal (ts : List (Option String)) (ps : List Temp)
    (j : Nat) (t r : String)
    (hts : ts.length ≠ 0) (hps : ps.length ≠ 0)
    (hj : j < (ts.zip ps).length)
    (hget : (ts.zip ps).get ⟨j, hj⟩ = (some t, Temp.nonCoercible r))
    (hfirst : ∀ l (hl : l < j),
      isOffender ((ts.zip ps).get ⟨l, Nat.lt_trans hl hj⟩) = false) :
    analyze_time_series (some (.seq ts)) (some (.seq ps)) =
      .error (.weatherAnalysisError (invalidTempMsg j r)) := by
  have hdecomp : ts.zip ps =
      (ts.zip ps).take j ++ (some t, Temp.nonCoercible r) :: (ts.zip ps).drop (j + 1) := by
    conv_lhs => rw [← List.take_append_drop j (ts.zip ps)]
    rw [List.drop_eq_getElem_cons hj]
    have hg2 : (ts.zip ps)[j] = (some t, Temp.nonCoercible r) := hget
    rw [hg2]
  have hpre : ∀ p ∈ (ts.zip ps).take j, isOffender p = false := by
    intro p hp
    obtain ⟨l, hl, hlj, hgetl⟩ := mem_take_imp_get (ts.zip ps) j p hp
    rw [← hgetl]
    exact hfirst l hlj
  have hlen : ((ts.zip ps).take j).length = j := by
    rw [List.length_take]
    omega
  have herr : reconcile (ts.zip ps) 0 =
      .error (.weatherAnalysisError (invalidTempMsg j r)) := by
    conv_lhs => rw [hdecomp]
    rw [reconcile_error _ t r _ 0 hpre, hlen, Nat.zero_add]
  rw [analyze_seq_seq ts ps hts hps, herr]

theorem C2_witness :
    analyze_time_series (some (.seq [some "t0"]))
        (some (.seq [Temp.nonCoercible "abc"])) =
      .error (.weatherAnalysisError (invalidTempMsg 0 "abc")) :=
  C2_non_coercible_is_fatal [some "t0"] [Temp.nonCoercible "abc"] 0 "t0" "abc"
    (by decide) (by decide) (by decide) (by decide)
    (fun l hl => absurd hl (Nat.not_lt_zero l))

/-- Inversion of a successful loop run: the validated list is exactly the
order-preserving `survivors` filter and the counter is exactly the number
of skipped pairs. -/
theorem reconcile_ok_inv :
    ∀ (z : List (Option String × Temp)) (i : Nat) (v : List (String × ℚ)) (k : Nat),
      reconcile z i = .ok (v, k) →
      v = survivors z ∧ k = z.countP isSkipped := by
  intro z
  induction z with
  | nil =>
    intro i v k h
    simp [reconcile] at h
    simp [survivors, h.1, h.2]
  | cons hd tl ih =>
    intro i v k h
    obtain ⟨t, temp⟩ := hd
    rcases hr : reconcile tl (i + 1) with e | vk
    · have : reconcile ((t, temp) :: tl) i = .error e ∨
          reconcile ((t, temp) :: tl) i =
            .error (.weatherAnalysisError (invalidTempMsg i (match temp with
              | Temp.nonCoercible r => r
              | _ => ""))) := by
        cases t with
        | none => exact Or.inl (by simp [reconcile, bumpSkip, hr, Except.map])
        | some tv =>
          cases temp with
          | null => exact Or.inl (by simp [reconcile, bumpSkip, hr, Except.map])
          | coercible q => exact Or.inl (by simp [reconcile, hr, Except.map])
          | nonCoercible r => exact Or.inr (by simp [reconcile])
      rcases this with h2 | h2 <;> rw [h2] at h <;> simp at h
    · obtain ⟨v', k'⟩ := vk
      obtain ⟨hv', hk'⟩ := ih (i + 1) v' k' hr
      cases t with
      | none =>
        rw [show reconcile ((Option.none, temp) :: tl) i
            = bumpSkip (reconcile tl (i + 1)) from rfl, hr] at h
        simp [bumpSkip, Except.map] at h
        obtain ⟨h1, h2⟩ := h
        refine ⟨by rw [show survivors ((Option.none, temp) :: tl) = survivors tl from rfl,
          ← h1, hv'], ?_⟩
        rw [show List.countP isSkipped ((Option.none, temp) :: tl)
            = List.countP isSkipped tl + 1 from by simp [List.countP_cons, isSkipped]]
        omega
      | some tv =>
        cases temp with
        | null =>
          rw [show reconcile ((some tv, Temp.null) :: tl) i
              = bumpSkip (reconcile tl (i + 1)) from rfl, hr] at h
          simp [bumpSkip, Except.map] at h
          obtain ⟨h1, h2⟩ := h
          refine ⟨by rw [show survivors ((some tv, Temp.null) :: tl) = survivors tl from rfl,
            ← h1, hv'], ?_⟩
          rw [show List.countP isSkipped ((some tv, Temp.null) :: tl)
              = List.countP isSkipped tl + 1 from by simp [List.countP_cons, isSkipped]]
          omega
        | coercible q =>
          rw [show reconcile ((some tv, Temp.coercible q) :: tl) i
              = (reconcile tl (i + 1)).map (fun vk => ((tv, q) :: vk.1, vk.2)) from rfl,
            hr] at h
          simp [Except.map] at h
          obtain ⟨h1, h2⟩ := h
          refine ⟨by rw [show survivors ((some tv, Temp.coercible q) :: tl)
              = (tv, q) :: survivors tl from rfl, ← h1, hv'], ?_⟩
          rw [show List.countP isSkipped ((some tv, Temp.coercible q) :: tl)
              = List.countP isSkipped tl from by simp [List.countP_cons, isSkipped]]
          omega
        | nonCoercible r =>
          simp [reconcile] at h

/-- C4: for accepted sequences of different lengths, every successful
result is truncated and carries the length-mismatch warning naming both
lengths; the analysis reads only the common prefix of length
`min len_times len_temps` (inputs agreeing there and in their lengths are
indistinguishable); for equal lengths, `truncated` is false and no
length-mismatch warning is emitted. -/
theorem C4_truncation_policy :
    (∀ (ts : List (Option String)) (ps : List Temp) (res : AnalysisResult),
      ts.length ≠ ps.length →
      analyze_time_series (some (.seq ts)) (some (.seq ps)) = .ok res →
      res.truncated = true ∧ mismatchMsg ts.length ps.length ∈ res.warnings) ∧
    (∀ (ts ts' : List (Option String)) (ps ps' : List Temp),
      ts.length = ts'.length → ps.length = ps'.length →
      ts.take (min ts.length ps.length) = ts'.take (min ts.length ps.length) →
      ps.take (min ts.length ps.length) = ps'.take (min ts.length ps.length) →
      analyze_time_series (some (.seq ts)) (some (.seq ps)) =
        analyze_time_series (some (.seq ts')) (some (.seq ps'))) ∧
    (∀ (ts : List (Option String)) (ps : List Temp) (res : AnalysisResult),
      ts.length = ps.length →
      analyze_time_series (some (.seq ts)) (some (.seq ps)) = .ok res →
      res.truncated = false ∧ ∀ a b, mismatchMsg a b ∉ res.warnings) := by
  refine ⟨?_, ?_, ?_⟩
  · intro ts ps res hne h
    obtain ⟨hts, hps, v0, vrest, skipped, hrec, hres⟩ := analyze_ok_inv ts ps res h
    subst hres
    constructor
    · simp [buildResult, hne]
    · simp [buildResult, hne]
  · intro ts ts' ps ps' hlt hlp htk hpk
    by_cases h0 : ts.length = 0 ∨ ps.length = 0
    · have h0' : ts'.length = 0 ∨ ps'.length = 0 := by
        rcases h0 with h | h
        · exact Or.inl (by omega)
        · exact Or.inr (by omega)
      rw [analyze_seq_zero _ _ h0, analyze_seq_zero _ _ h0']
    · push_neg at h0
      have hts' : ts'.length ≠ 0 := by omega
      have hps' : ps'.length ≠ 0 := by omega
      have hzip : ts.zip ps = ts'.zip ps' := by
        rw [zip_take_min ts ps, zip_take_min ts' ps', ← hlt, ← hlp, htk, hpk]
      rw [analyze_seq_seq ts ps h0.1 h0.2, analyze_seq_seq ts' ps' hts' hps',
        hzip, hlt, hlp]
  · intro ts ps res heq h
    obtain ⟨hts, hps, v0, vrest, skipped, hrec, hres⟩ := analyze_ok_inv ts ps res h
    subst hres
    refine ⟨by simp [buildResult, heq], ?_⟩
    intro a b hmem
    simp only [buildResult, heq, ne_eq, not_true_eq_false, if_false, ite_false,
      List.nil_append] at hmem
    by_cases hsk : skipped = 0
    · simp [hsk] at hmem
    · simp [hsk] at hmem
      exact skipMsg_ne_mismatchMsg skipped a b hmem.symm

theorem C4_witness :
    (buildResult ("t0", (1 : ℚ)) [] true [mismatchMsg 2 1]).truncated = true ∧
    mismatchMsg 2 1 ∈ (buildResult ("t0", (1 : ℚ)) [] true [mismatchMsg 2 1]).warnings :=
  C4_truncation_policy.1 [some "t0", some "t1"] [Temp.coercible 1]
    (buildResult ("t0", (1 : ℚ)) [] true [mismatchMsg 2 1]) (by decide) rfl

/-- C5: for accepted inputs in which exactly `k` pairs below the
effective length have a null on either side (`0 < k <` effective length)
and every remaining pair is coercible, the call succeeds, the loop
returns exactly the order-preserving `survivors` filter together with the
count `k`, the result `count` is the effective length minus `k`, and the
skipped-pair warning mentioning `k` is present; when no pair is skipped,
no skipped-pair warning is emitted. -/
theorem C5_skipped_pairs_policy :
    (∀ (ts : List (Option String)) (ps : List Temp) (k : Nat),
      (∀ p ∈ ts.zip ps, isOffender p = false) →
      (ts.zip ps).countP isSkipped = k →
      0 < k → k < (ts.zip ps).length →
      reconcile (ts.zip ps) 0 = .ok (survivors (ts.zip ps), k) ∧
      ∃ res, analyze_time_series (some (.seq ts)) (some (.seq ps)) = .ok res ∧
        res.count = (ts.zip ps).length - k ∧ skipMsg k ∈ res.warnings) ∧
    (∀ (ts : List (Option String)) (ps : List Temp) (res : AnalysisResult),
      (ts.zip ps).countP isSkipped = 0 →
      analyze_time_series (some (.seq ts)) (some (.seq ps)) = .ok res →
      ∀ j, skipMsg j ∉ res.warnings) := by
  constructor
  · intro ts ps k hoff hcnt hk0 hklt
    have hrec : reconcile (ts.zip ps) 0 = .ok (survivors (ts.zip ps), k) := by
      rw [reconcile_ok _ 0 hoff, hcnt]
    have hslen : (survivors (ts.zip ps)).length = (ts.zip ps).length - k := by
      have := survivors_length_add_countP (ts.zip ps) hoff
      omega
    have hts : ts.length ≠ 0 := by
      have h1 : (ts.zip ps).length ≤ ts.length := by
        rw [List.length_zip]; omega
      omega
    have hps : ps.length ≠ 0 := by
      have h1 : (ts.zip ps).length ≤ ps.length := by
        rw [List.length_zip]; omega
      omega
    refine ⟨hrec, ?_⟩
    cases hsv : survivors (ts.zip ps) with
    | nil =>
      rw [hsv] at hslen
      simp only [List.length_nil] at hslen
      omega
    | cons v0 vrest =>
      rw [hsv] at hrec
      have hlen2 : vrest.length + 1 = (ts.zip ps).length - k := by
        rw [hsv] at hslen
        simpa only [List.length_cons] using hslen
      have hkne : k ≠ 0 := by omega
      refine ⟨buildResult v0 vrest (decide (ts.length ≠ ps.length))
        ((if ts.length ≠ ps.length then [mismatchMsg ts.length ps.length] else [])
          ++ [skipMsg k]), ?_, ?_, ?_⟩
      · rw [analyze_seq_seq ts ps hts hps, hrec]
        simp [hkne]
      · simp [buildResult, hlen2]
      · simp [buildResult]
  · intro ts ps res hcnt h
    obtain ⟨hts, hps, v0, vrest, skipped, hrec, hres⟩ := analyze_ok_inv ts ps res h
    obtain ⟨hv, hk⟩ := reconcile_ok_inv _ 0 _ _ hrec
    have hsk0 : skipped = 0 := by rw [hk, hcnt]
    subst hres
    intro j hmem
    simp [buildResult, hsk0] at hmem
    by_cases hne : ts.length = ps.length
    · simp [hne] at hmem
    · simp [hne] at hmem
      exact skipMsg_ne_mismatchMsg j ts.length ps.length hmem

theorem C5_witness :
    reconcile ([some "t0", Option.none].zip [Temp.coercible 1, Temp.coercible 2]) 0 =
      .ok (survivors ([some "t0", Option.none].zip [Temp.coercible 1, Temp.coercible 2]), 1) ∧
    ∃ res, analyze_time_series (some (.seq [some "t0", Option.none]))
        (some (.seq [Temp.coercible 1, Temp.coercible 2])) = .ok res ∧
      res.count = ([some "t0", Option.none].zip [Temp.coercible 1, Temp.coercible 2]).length - 1 ∧
      skipMsg 1 ∈ res.warnings :=
  C5_skipped_pairs_policy.1 [some "t0", Option.none] [Temp.coercible 1, Temp.coercible 2] 1
    (by decide) (by decide) (by decide) (by decide)

/-- `firstTimeAt` really is the first-occurrence lookup: whenever `m`
occurs among the temperatures, there is an index `j` holding `m` whose
time field is returned, with no earlier index holding `m`. -/
theorem firstTimeAt_first_occurrence (valid : List (String × ℚ)) (m : ℚ)
    (hmem : m ∈ valid.map Prod.snd) :
    ∃ j, ∃ hj : j < valid.length,
      (valid.get ⟨j, hj⟩).2 = m ∧
      (valid.get ⟨j, hj⟩).1 = firstTimeAt valid m ∧
      ∀ i (hi : i < j), (valid.get ⟨i, Nat.lt_trans hi hj⟩).2 ≠ m := by
  obtain ⟨p, hp, hp2⟩ := List.mem_map.mp hmem
  obtain ⟨a, ha⟩ : ∃ a, valid.find? (fun q => q.2 = m) = some a :=
    find?_exists_of_mem _ valid p hp (by simp [hp2])
  obtain ⟨j, hj, hget, hpa, hprev⟩ := find?_eq_some_first _ valid a ha
  refine ⟨j, hj, ?_, ?_, ?_⟩
  · rw [hget]
    exact of_decide_eq_true hpa
  · rw [hget]
    unfold firstTimeAt
    rw [ha]
  · intro i hi
    have hfalse := hprev i hi
    simpa using hfalse

/-- C6: in every successful result, `min`/`max` are the minimum and
maximum of the coerced temperatures of the surviving pairs, and
`min_time`/`max_time` are the time fields of the first-occurring pair
attaining the extreme value (lowest surviving index): no earlier
surviving pair attains it. -/
theorem C6_extrema_first_occurrence (ts : List (Option String)) (ps : List Temp)
    (v0 : String × ℚ) (vrest : List (String × ℚ)) (skipped : Nat)
    (hts : ts.length ≠ 0) (hps : ps.length ≠ 0)
    (hrec : reconcile (ts.zip ps) 0 = .ok (v0 :: vrest, skipped)) :
    ∃ res, analyze_time_series (some (.seq ts)) (some (.seq ps)) = .ok res ∧
      (∀ p ∈ v0 :: vrest, res.min ≤ p.2 ∧ p.2 ≤ res.max) ∧
      (∃ j, ∃ hj : j < (v0 :: vrest).length,
        ((v0 :: vrest).get ⟨j, hj⟩).2 = res.min ∧
        ((v0 :: vrest).get ⟨j, hj⟩).1 = res.min_time ∧
        ∀ i (hi : i < j), ((v0 :: vrest).get ⟨i, Nat.lt_trans hi hj⟩).2 ≠ res.min) ∧
      (∃ j, ∃ hj : j < (v0 :: vrest).length,
        ((v0 :: vrest).get ⟨j, hj⟩).2 = res.max ∧
        ((v0 :: vrest).get ⟨j, hj⟩).1 = res.max_time ∧
        ∀ i (hi : i < j), ((v0 :: vrest).get ⟨i, Nat.lt_trans hi hj⟩).2 ≠ res.max) := by
  have hmemsnd : ∀ p ∈ v0 :: vrest, p.2 ∈ v0.2 :: vrest.map Prod.snd := by
    intro p hp
    rcases List.mem_cons.mp hp with h1 | h1
    · rw [h1]
      exact List.mem_cons_self _ _
    · exact List.mem_cons_of_mem _ (List.mem_map_of_mem Prod.snd h1)
  refine ⟨buildResult v0 vrest (decide (ts.length ≠ ps.length))
    ((if ts.length ≠ ps.length then [mismatchMsg ts.length ps.length] else [])
      ++ (if skipped ≠ 0 then [skipMsg skipped] else [])), ?_, ?_, ?_, ?_⟩
  · rw [analyze_seq_seq ts ps hts hps, hrec]
  · intro p hp
    exact ⟨foldl_min_le _ _ _ (hmemsnd p hp), le_foldl_max _ _ _ (hmemsnd p hp)⟩
  · have hmm : (vrest.map Prod.snd).foldl Min.min v0.2 ∈ (v0 :: vrest).map Prod.snd := by
      simpa using foldl_min_mem (vrest.map Prod.snd) v0.2
    obtain ⟨j, hj, h1, h2, h3⟩ :=
      firstTimeAt_first_occurrence (v0 :: vrest) ((vrest.map Prod.snd).foldl Min.min v0.2) hmm
    exact ⟨j, hj, h1, h2, h3⟩
  · have hmm : (vrest.map Prod.snd).foldl Max.max v0.2 ∈ (v0 :: vrest).map Prod.snd := by
      simpa using foldl_max_mem (vrest.map Prod.snd) v0.2
    obtain ⟨j, hj, h1, h2, h3⟩ :=
      firstTimeAt_first_occurrence (v0 :: vrest) ((vrest.map Prod.snd).foldl Max.max v0.2) hmm
    exact ⟨j, hj, h1, h2, h3⟩

theorem C6_witness :
    ∃ res, analyze_time_series (some (.seq [some "A", some "B"]))
        (some (.seq [Temp.coercible 5, Temp.coercible 5])) = .ok res ∧
      (∀ p ∈ ("A", (5 : ℚ)) :: [("B", (5 : ℚ))], res.min ≤ p.2 ∧ p.2 ≤ res.max) ∧
      (∃ j, ∃ hj : j < (("A", (5 : ℚ)) :: [("B", (5 : ℚ))]).length,
        ((("A", (5 : ℚ)) :: [("B", (5 : ℚ))]).get ⟨j, hj⟩).2 = res.min ∧
        ((("A", (5 : ℚ)) :: [("B", (5 : ℚ))]).get ⟨j, hj⟩).1 = res.min_time ∧
        ∀ i (hi : i < j),
          ((("A", (5 : ℚ)) :: [("B", (5 : ℚ))]).get ⟨i, Nat.lt_trans hi hj⟩).2 ≠ res.min) ∧
      (∃ j, ∃ hj : j < (("A", (5 : ℚ)) :: [("B", (5 : ℚ))]).length,
        ((("A", (5 : ℚ)) :: [("B", (5 : ℚ))]).get ⟨j, hj⟩).2 = res.max ∧
        ((("A", (5 : ℚ)) :: [("B", (5 : ℚ))]).get ⟨j, hj⟩).1 = res.max_time ∧
        ∀ i (hi : i < j),
          ((("A", (5 : ℚ)) :: [("B", (5 : ℚ))]).get ⟨i, Nat.lt_trans hi hj⟩).2 ≠ res.max) :=
  C6_extrema_first_occurrence [some "A", some "B"] [Temp.coercible 5, Temp.coercible 5]
    ("A", 5) [("B", 5)] 0 (by decide) (by decide) rfl

/-- C7: in every successful result, the standard-deviation field is the
source embedding applied to the surviving coerced temperatures; its
radicand equals the Bessel-corrected sample variance (divisor `n - 1`)
whenever `count ≥ 2`, and it is null when `count = 1` — a single
surviving pair still yields a successful result, never an error. -/
theorem C7_stddev_policy (ts : List (Option String)) (ps : List Temp)
    (v0 : String × ℚ) (vrest : List (String × ℚ)) (skipped : Nat)
    (hts : ts.length ≠ 0) (hps : ps.length ≠ 0)
    (hrec : reconcile (ts.zip ps) 0 = .ok (v0 :: vrest, skipped)) :
    ∃ res, analyze_time_series (some (.seq ts)) (some (.seq ps)) = .ok res ∧
      res.stddev_sq = calculate_standard_deviation ((v0 :: vrest).map Prod.snd) ∧
      (2 ≤ (v0 :: vrest).length →
        res.stddev_sq = some (besselSampleVariance ((v0 :: vrest).map Prod.snd))) ∧
      ((v0 :: vrest).length = 1 → res.stddev_sq = Option.none) := by
  refine ⟨buildResult v0 vrest (decide (ts.length ≠ ps.length))
    ((if ts.length ≠ ps.length then [mismatchMsg ts.length ps.length] else [])
      ++ (if skipped ≠ 0 then [skipMsg skipped] else [])), ?_, rfl, ?_, ?_⟩
  · rw [analyze_seq_seq ts ps hts hps, hrec]
  · intro h2
    have hmaplen : ((v0 :: vrest).map Prod.snd).length = (v0 :: vrest).length :=
      List.length_map _ _
    show calculate_standard_deviation ((v0 :: vrest).map Prod.snd) = _
    unfold calculate_standard_deviation besselSampleVariance
    rw [if_neg (by omega)]
  · intro h1
    have hv : vrest = [] := by
      simpa using h1
    subst hv
    rfl

theorem C7_witness :
    ∃ res, analyze_time_series (some (.seq [some "t0"]))
        (some (.seq [Temp.coercible 1])) = .ok res ∧
      res.stddev_sq = calculate_standard_deviation ((("t0", (1 : ℚ)) :: []).map Prod.snd) ∧
      (2 ≤ (("t0", (1 : ℚ)) :: []).length →
        res.stddev_sq = some (besselSampleVariance ((("t0", (1 : ℚ)) :: []).map Prod.snd))) ∧
      ((("t0", (1 : ℚ)) :: []).length = 1 → res.stddev_sq = Option.none) :=
  C7_stddev_policy [some "t0"] [Temp.coercible 1] ("t0", 1) [] 0
    (by decide) (by decide) rfl

/-- C10: in every successful result the warnings list is exactly a
possibly-empty length-mismatch warning followed by a possibly-empty
skipped-pair warning — so it has at most two entries, in that fixed
order, and no other warning text is ever produced. -/
theorem C10_warnings_canonical (t : Option (Arg (Option String)))
    (p : Option (Arg Temp)) (res : AnalysisResult)
    (h : analyze_time_series t p = .ok res) :
    res.warnings.length ≤ 2 ∧
    ∃ a b k, res.warnings =
      (if a ≠ b then [mismatchMsg a b] else []) ++ (if k ≠ 0 then [skipMsg k] else []) := by
  obtain ⟨ts, ps, rfl, rfl⟩ := analyze_ok_shape t p res h
  obtain ⟨hts, hps, v0, vrest, skipped, hrec, hres⟩ := analyze_ok_inv ts ps res h
  subst hres
  refine ⟨?_, ts.length, ps.length, skipped, rfl⟩
  show ((if ts.length ≠ ps.length then [mismatchMsg ts.length ps.length] else [])
      ++ (if skipped ≠ 0 then [skipMsg skipped] else [])).length ≤ 2
  by_cases h1 : ts.length = ps.length <;> by_cases h2 : skipped = 0 <;> simp [h1, h2]

theorem C10_witness :
    (buildResult ("t0", (1 : ℚ)) [] false []).warnings.length ≤ 2 ∧
    ∃ a b k, (buildResult ("t0", (1 : ℚ)) [] false []).warnings =
      (if a ≠ b then [mismatchMsg a b] else []) ++ (if k ≠ 0 then [skipMsg k] else []) :=
  C10_warnings_canonical (some (.seq [some "t0"])) (some (.seq [Temp.coercible 1]))
    (buildResult ("t0", (1 : ℚ)) [] false []) rfl
